import Mathlib

/-!
Shallow embedding of `tracker.py` (mtracker): an artist-name resolver and
release-group lister over the MusicBrainz catalog.

Network effects are modelled by oracle functions passed explicitly:
`catalog : String → List ArtistJson` is the `artists` array of the search
endpoint's JSON response for a query string (the retry loop in the source
always terminates with some 200 response, whose payload the oracle gives),
and `detail : α → ArtistRec × List RelGroupJson` is the artist-detail
endpoint's response, already split into the record left after
`del j['release-groups']` and the `release-groups` array.

Python dictionaries are modelled as insertion-ordered association lists
(`List (String × Option String)`), with `dictInsert`/`dictUpdate` mirroring
`dict.__setitem__`/`dict.update`. A Python value that is a string or `None`
is `Option String`; its truthiness (`None` and `""` are falsy) is `optTruthy`.
-/

namespace Tracker

/-- Truthiness of a Python value that is either a string or None:
`None` and the empty string are falsy. -/
def optTruthy : Option String → Bool
  | some s => !(s == "")
  | none => false

/-- Truthiness of a Python value that is either a list of strings or None
(as produced by argparse with `nargs='+'`): `None` and `[]` are falsy. -/
def listTruthy : Option (List String) → Bool
  | some l => !l.isEmpty
  | none => false

/-- One element of the `artists` array in the search endpoint's response:
the fields of the JSON object that `search_artist` and `lookup` read.
`disambiguation` is `none` when the key is absent. -/
structure ArtistJson where
  name : String
  id : String
  score : Nat
  disambiguation : Option String
deriving DecidableEq, Repr

/-- An artist dict after `search_artist` has stored `artist['dispname']`:
the original fields plus the computed display name. -/
structure Candidate where
  name : String
  id : String
  score : Nat
  disambiguation : Option String
  dispname : String
deriving DecidableEq, Repr

/-- The annotation step inside `search_artist`'s loop body: sets
`artist['dispname']` from `artist['name']` and, when the `disambiguation`
value is truthy (present and non-empty), appends it in parentheses. -/
def mkCandidate (a : ArtistJson) : Candidate :=
  { name := a.name, id := a.id, score := a.score, disambiguation := a.disambiguation,
    dispname :=
      if optTruthy a.disambiguation then
        a.name ++ " (" ++ a.disambiguation.getD "" ++ ")"
      else a.name }

/-- `search_artist(artist_name)`: of the artists returned by the catalog for
the query, keep those whose `name` equals the query string or whose `score`
is 100, each annotated with its `dispname`. The loop-with-append of the
source is the filter of the response followed by the annotation map. -/
def search_artist (catalog : String → List ArtistJson) (artist_name : String) :
    List Candidate :=
  ((catalog artist_name).filter (fun a => a.name == artist_name || a.score == 100)).map
    mkCandidate

/-- The artist record attached as a back-reference to each release:
what remains of the detail response after `del j['release-groups']`,
restricted to the fields the program reads downstream. -/
structure ArtistRec where
  name : String
  id : String
deriving DecidableEq, Repr

/-- One element of the `release-groups` array in the detail response:
the fields the program reads (`title`, `first-release-date`). -/
structure RelGroupJson where
  title : String
  first_release_date : String
deriving DecidableEq, Repr

/-- A release group after `get_releases_artist` set `release['artist']`. -/
structure Release where
  title : String
  first_release_date : String
  artist : ArtistRec
deriving DecidableEq, Repr

/-- `get_releases_artist(art_id)`: fetch the artist's detail record,
split off its release groups, and attach the remaining artist record to
every release. The identifier type is a parameter because `main` passes
the raw dictionary values (strings or None) as identifiers. -/
def get_releases_artist {α : Type} (detail : α → ArtistRec × List RelGroupJson)
    (art_id : α) : List Release :=
  ((detail art_id).2).map (fun rg =>
    { title := rg.title, first_release_date := rg.first_release_date,
      artist := (detail art_id).1 })

/-- Code-point lexicographic comparison of character sequences: this is how
Python compares two `str` values with `<=` (and hence how `sorted` orders
string keys). -/
def lexLe : List Char → List Char → Bool
  | [], _ => true
  | _ :: _, [] => false
  | a :: as, b :: bs =>
    if a.toNat < b.toNat then true
    else if b.toNat < a.toNat then false
    else lexLe as bs

/-- Python's `<=` on strings: code-point lexicographic order. -/
def pyLe (a b : String) : Bool := lexLe a.data b.data

/-- Insert a release into a list, placing it before the first element whose
`first-release-date` key is `<=` its own. Auxiliary step of `sortRelDesc`. -/
def insertRelDesc (r : Release) : List Release → List Release
  | [] => [r]
  | x :: xs =>
    if pyLe x.first_release_date r.first_release_date then r :: x :: xs
    else x :: insertRelDesc r xs

/-- `sorted(rs, key=lambda r: r['first-release-date'], reverse=True)`:
Python's `sorted` is documented to be stable, and `reverse=True` does not
disturb the order of elements with equal keys; a stable descending sort is
uniquely determined by the key order, and this insertion sort computes it
(each element is inserted behind all earlier elements with strictly greater
keys and ahead of the later elements it ties with). -/
def sortRelDesc : List Release → List Release
  | [] => []
  | x :: xs => insertRelDesc x (sortRelDesc xs)

/-- `get_releases(artist_ids)`: fetch each artist's release groups in input
order, concatenate (`all_releases.extend(releases)`), and sort the result by
`first-release-date` descending. -/
def get_releases {α : Type} (detail : α → ArtistRec × List RelGroupJson)
    (artist_ids : List α) : List Release :=
  sortRelDesc ((artist_ids.map (get_releases_artist detail)).flatten)

/-- Python `str.ljust(w)`: pad on the right with spaces to length at least `w`. -/
def ljust (s : String) (w : Nat) : String :=
  s ++ String.mk (List.replicate (w - s.length) ' ')

/-- `print_releases(releases)`: the lines printed to the console, one per
release. The template is the source's format string (date field substituted
first, then a space, then the artist name, then a space-hyphen-space, then
the title), with the date left-justified to width 10. -/
def print_releases (releases : List Release) : List String :=
  releases.map (fun r =>
    ljust r.first_release_date 10 ++ " " ++ r.artist.name ++ " - " ++ r.title)

/-- The working set: a Python dict of artist name to identifier-or-None,
as an insertion-ordered association list with unique keys. -/
abbrev Cache := List (String × Option String)

/-- `d[k] = v` on a Python dict: replace the value in place if the key is
present (position preserved), otherwise append the new binding. -/
def dictInsert (m : Cache) (kv : String × Option String) : Cache :=
  if m.any (fun p => p.1 == kv.1) then
    m.map (fun p => if p.1 == kv.1 then (p.1, kv.2) else p)
  else m ++ [kv]

/-- `d.update(j)` on Python dicts: insert `j`'s bindings in order. -/
def dictUpdate (m : Cache) (j : Cache) : Cache :=
  j.foldl dictInsert m

/-- Result of `lookup`: the mutated dict, the `changed` and `failure` flags
it returns, and (modelling the network effect explicitly) the trace of names
it passed to `search_artist`, in query order. -/
structure LookupResult where
  kvs : Cache
  changed : Bool
  failure : Bool
  queried : List String
deriving DecidableEq, Repr

/-- `lookup(kvs)`: for each entry in insertion order, skip it if its value is
truthy; otherwise query the catalog for the name. A single-candidate answer
stores the candidate's id and sets `changed`; any other answer sets
`failure` and leaves the entry as it was. -/
def lookup (catalog : String → List ArtistJson) : Cache → LookupResult
  | [] => ⟨[], false, false, []⟩
  | (k, v) :: rest =>
    if optTruthy v then
      let r := lookup catalog rest
      ⟨(k, v) :: r.kvs, r.changed, r.failure, r.queried⟩
    else
      let r := lookup catalog rest
      match search_artist catalog k with
      | [m] => ⟨(k, some m.id) :: r.kvs, true, r.failure, k :: r.queried⟩
      | _ => ⟨(k, v) :: r.kvs, r.changed, true, k :: r.queried⟩

/-- The argparse namespace: `--ids` and `--artists` are `None` or a
non-empty list, `--json` is `None` or a path, `-v` is a flag. These are the
only attributes argparse defines on `args`. -/
structure Args where
  ids : Option (List String)
  artists : Option (List String)
  json : Option String
  verbose : Bool
deriving DecidableEq, Repr

/-- The working set after the loading phase of `main`: seed the names given
via `--artists` as unresolved, then, if a cache path was given, merge the
cache file's mapping over it; a missing file (`FileNotFoundError`) is passed
over silently. `file` is the parsed content of the cache file, or `none`
when the file does not exist. -/
def initialKvs (args : Args) (file : Option Cache) : Cache :=
  let kvs0 : Cache :=
    if listTruthy args.artists then
      dictUpdate [] ((args.artists.getD []).map (fun k => (k, (none : Option String))))
    else []
  if optTruthy args.json then
    match file with
    | some j => dictUpdate kvs0 j
    | none => kvs0
  else kvs0

/-- The resolution phase of `main`: `lookup` runs only when the working set
is non-empty (`if kvs:`); otherwise `rewrite` and `fail` keep their initial
`False` values. -/
def lookupStage (catalog : String → List ArtistJson) (kvs : Cache) : LookupResult :=
  if kvs.isEmpty then ⟨kvs, false, false, []⟩ else lookup catalog kvs

/-- Observable outcome of one run of `main`: the final working set, the
content written to the cache file (`none` when no write happened), whether
the failure message was printed and the run returned early, whether the run
died with an uncaught exception, and the fetched releases and printed lines
(`none` when execution never reached them). -/
structure RunResult where
  kvs : Cache
  written : Option Cache
  failed : Bool
  crashed : Bool
  releases : Option (List Release)
  output : Option (List String)
deriving DecidableEq, Repr

/-- `main()`: build the working set, resolve, write the cache back when the
set is non-empty, something changed, and a path was given, then abort on
failure, and otherwise fetch and print releases for the dict's values.
The source's line `artist_ids.extend(args.artist_ids)` reads the attribute
`artist_ids`, which argparse never defines (the option is stored as
`args.ids`), so whenever `args.ids` is truthy the run raises
`AttributeError` at that line — after the cache write, before any fetch;
the model records this as `crashed`. -/
def mainRun (catalog : String → List ArtistJson)
    (detail : Option String → ArtistRec × List RelGroupJson)
    (file : Option Cache) (args : Args) : RunResult :=
  let kvs1 := initialKvs args file
  let r := lookupStage catalog kvs1
  let written := if !r.kvs.isEmpty && r.changed && optTruthy args.json then some r.kvs else none
  if r.failure then
    { kvs := r.kvs, written := written, failed := true, crashed := false,
      releases := none, output := none }
  else if listTruthy args.ids then
    { kvs := r.kvs, written := written, failed := false, crashed := true,
      releases := none, output := none }
  else
    let rels := get_releases detail (r.kvs.map Prod.snd)
    { kvs := r.kvs, written := written, failed := false, crashed := false,
      releases := some rels, output := some (print_releases rels) }

/-- The descending-by-date ordering relation that `sortRelDesc` establishes. -/
def relGe (a b : Release) : Prop :=
  pyLe b.first_release_date a.first_release_date = true

/-- What `lookup` does to one entry of the working set: an entry with a
truthy value is untouched; otherwise a single-candidate search stores the
candidate's id, and any other search result leaves the entry unchanged. -/
def resolveEntry (catalog : String → List ArtistJson) (p : String × Option String) :
    String × Option String :=
  if optTruthy p.2 then p
  else
    match search_artist catalog p.1 with
    | [m] => (p.1, some m.id)
    | _ => p

/-- Join a list of fields with a separator between consecutive fields. -/
def joinSep (sep : String) : List String → String
  | [] => ""
  | [x] => x
  | x :: xs => x ++ sep ++ joinSep sep xs

/-- Modelled from the spec's words for the presenter: one line per release
holding the date left-justified to width 10, the artist name, and the
title, with the three fields separated by a space-hyphen-space. -/
def specLineC5 (r : Release) : String :=
  joinSep " - " [ljust r.first_release_date 10, r.artist.name, r.title]

/-- The amended presenter line: the date left-justified to width 10,
then a single space, then the artist name and the title separated by a
space-hyphen-space. -/
def specLineC5Amended (r : Release) : String :=
  ljust r.first_release_date 10 ++ " " ++ joinSep " - " [r.artist.name, r.title]

/-- A concrete detail oracle: one artist whose release groups carry the
first-release dates of the spec's sorting example, in the spec's input
order 2020-01-01, 1999-05-05, 2020-06-01. -/
def exDetail : Nat → ArtistRec × List RelGroupJson :=
  fun _ =>
    (⟨"The Example Artist", "mbid-0000"⟩,
      [⟨"First", "2020-01-01"⟩, ⟨"Second", "1999-05-05"⟩, ⟨"Third", "2020-06-01"⟩])

theorem lexLe_refl (l : List Char) : lexLe l l = true := by
  induction l with
  | nil => rfl
  | cons a as ih => simp [lexLe, ih]

theorem pyLe_refl (s : String) : pyLe s s = true := lexLe_refl s.data

theorem lexLe_total (x : List Char) : ∀ y, lexLe x y = true ∨ lexLe y x = true := by
  induction x with
  | nil => intro y; left; rfl
  | cons a as ih =>
    intro y
    cases y with
    | nil => right; rfl
    | cons b bs =>
      rcases Nat.lt_trichotomy a.toNat b.toNat with h | h | h
      · left; simp [lexLe, h]
      · rcases ih bs with h2 | h2
        · left; simp [lexLe, h, h2]
        · right; simp [lexLe, h, h2]
      · right; simp [lexLe, h]

theorem pyLe_total (a b : String) : pyLe a b = true ∨ pyLe b a = true :=
  lexLe_total a.data b.data

theorem lexLe_trans (x : List Char) :
    ∀ y z, lexLe x y = true → lexLe y z = true → lexLe x z = true := by
  induction x with
  | nil => intro y z _ _; rfl
  | cons a as ih =>
    intro y z hxy hyz
    cases y with
    | nil => simp [lexLe] at hxy
    | cons b bs =>
      cases z with
      | nil => simp [lexLe] at hyz
      | cons c cs =>
        rcases Nat.lt_trichotomy a.toNat b.toNat with hab | hab | hab
        · rcases Nat.lt_trichotomy b.toNat c.toNat with hbc | hbc | hbc
          · simp [lexLe, Nat.lt_trans hab hbc]
          · simp [lexLe, ← hbc, hab]
          · simp [lexLe, hbc, Nat.lt_asymm hbc] at hyz
        · rcases Nat.lt_trichotomy b.toNat c.toNat with hbc | hbc | hbc
          · simp [lexLe, hab, hbc]
          · simp [lexLe, hab] at hxy
            simp [lexLe, hbc] at hyz
            simp [lexLe, hab, hbc]
            exact ih bs cs hxy hyz
          · simp [lexLe, hbc, Nat.lt_asymm hbc] at hyz
        · simp [lexLe, hab, Nat.lt_asymm hab] at hxy

theorem pyLe_trans {a b c : String} (h1 : pyLe a b = true) (h2 : pyLe b c = true) :
    pyLe a c = true :=
  lexLe_trans a.data b.data c.data h1 h2

theorem insertRelDesc_perm (r : Release) (l : List Release) :
    (insertRelDesc r l).Perm (r :: l) := by
  induction l with
  | nil => exact List.Perm.refl _
  | cons x xs ih =>
    by_cases h : pyLe x.first_release_date r.first_release_date = true
    · simp [insertRelDesc, h]
    · simp only [insertRelDesc, h, if_false, Bool.false_eq_true]
      exact (ih.cons x).trans (List.Perm.swap r x xs)

theorem sortRelDesc_perm (l : List Release) : (sortRelDesc l).Perm l := by
  induction l with
  | nil => exact List.Perm.refl _
  | cons x xs ih =>
    exact (insertRelDesc_perm x (sortRelDesc xs)).trans (ih.cons x)

theorem mem_insertRelDesc {y r : Release} {l : List Release} :
    y ∈ insertRelDesc r l ↔ y = r ∨ y ∈ l := by
  rw [(insertRelDesc_perm r l).mem_iff, List.mem_cons]

theorem insertRelDesc_sorted {l : List Release} (r : Release)
    (h : l.Pairwise relGe) : (insertRelDesc r l).Pairwise relGe := by
  induction l with
  | nil => simp [insertRelDesc]
  | cons x xs ih =>
    rw [List.pairwise_cons] at h
    obtain ⟨hx, hxs⟩ := h
    by_cases hc : pyLe x.first_release_date r.first_release_date = true
    · simp only [insertRelDesc, hc, if_true]
      rw [List.pairwise_cons]
      refine ⟨?_, List.pairwise_cons.mpr ⟨hx, hxs⟩⟩
      intro y hy
      rcases List.mem_cons.mp hy with rfl | hy
      · exact hc
      · exact pyLe_trans (hx y hy) hc
    · simp only [insertRelDesc, hc, if_false, Bool.false_eq_true]
      rw [List.pairwise_cons]
      refine ⟨?_, ih hxs⟩
      intro y hy
      rcases mem_insertRelDesc.mp hy with rfl | hy
      · rcases pyLe_total x.first_release_date y.first_release_date with h | h
        · exact absurd h hc
        · exact h
      · exact hx y hy

theorem sortRelDesc_sorted (l : List Release) : (sortRelDesc l).Pairwise relGe := by
  induction l with
  | nil => simp [sortRelDesc]
  | cons x xs ih => exact insertRelDesc_sorted x ih

theorem filter_insertRelDesc (r : Release) (d : String) (l : List Release) :
    (insertRelDesc r l).filter (fun y => y.first_release_date == d) =
      if r.first_release_date == d then
        r :: l.filter (fun y => y.first_release_date == d)
      else l.filter (fun y => y.first_release_date == d) := by
  induction l with
  | nil => simp only [insertRelDesc, List.filter_cons, List.filter_nil]
  | cons x xs ih =>
    by_cases hc : pyLe x.first_release_date r.first_release_date = true
    · simp only [insertRelDesc, hc, if_true]
      rw [List.filter_cons]
    · simp only [insertRelDesc, hc, if_false, Bool.false_eq_true]
      by_cases hx : (x.first_release_date == d) = true
      · by_cases hr : (r.first_release_date == d) = true
        · exfalso
          apply hc
          rw [beq_iff_eq.mp hx, beq_iff_eq.mp hr]
          exact pyLe_refl d
        · simp [List.filter_cons, hx, hr, ih]
      · simp [List.filter_cons, hx, ih]

theorem filter_sortRelDesc (d : String) (l : List Release) :
    (sortRelDesc l).filter (fun y => y.first_release_date == d) =
      l.filter (fun y => y.first_release_date == d) := by
  induction l with
  | nil => rfl
  | cons x xs ih =>
    simp only [sortRelDesc]
    rw [filter_insertRelDesc, List.filter_cons, ih]

theorem lookup_kvs_eq (catalog : String → List ArtistJson) (kvs : Cache) :
    (lookup catalog kvs).kvs = kvs.map (resolveEntry catalog) := by
  induction kvs with
  | nil => rfl
  | cons p rest ih =>
    obtain ⟨k, v⟩ := p
    by_cases hv : optTruthy v = true
    · simp [lookup, hv, resolveEntry, ih]
    · rw [Bool.not_eq_true] at hv
      cases hm : search_artist catalog k with
      | nil => simp [lookup, hv, resolveEntry, hm, ih]
      | cons m ms =>
        cases ms with
        | nil => simp [lookup, hv, resolveEntry, hm, ih]
        | cons m2 ms2 => simp [lookup, hv, resolveEntry, hm, ih]

theorem lookup_queried_eq (catalog : String → List ArtistJson) (kvs : Cache) :
    (lookup catalog kvs).queried =
      (kvs.filter (fun p => !optTruthy p.2)).map Prod.fst := by
  induction kvs with
  | nil => rfl
  | cons p rest ih =>
    obtain ⟨k, v⟩ := p
    by_cases hv : optTruthy v = true
    · simp [lookup, hv, List.filter_cons, ih]
    · rw [Bool.not_eq_true] at hv
      cases hm : search_artist catalog k with
      | nil => simp [lookup, hv, hm, List.filter_cons, ih]
      | cons m ms =>
        cases ms with
        | nil => simp [lookup, hv, hm, List.filter_cons, ih]
        | cons m2 ms2 => simp [lookup, hv, hm, List.filter_cons, ih]

theorem resolveEntry_eq_self {catalog : String → List ArtistJson}
    {p : String × Option String} (hv : optTruthy p.2 = false)
    (hlen : (search_artist catalog p.1).length ≠ 1) :
    resolveEntry catalog p = p := by
  unfold resolveEntry
  rw [if_neg (by simp [hv])]
  cases hm : search_artist catalog p.1 with
  | nil => rfl
  | cons m ms =>
    cases ms with
    | nil => exact absurd (by rw [hm]; rfl) hlen
    | cons m2 ms2 => rfl

theorem mem_value_eq_of_nodup {m : Cache} (hnodup : (m.map Prod.fst).Nodup)
    {k : String} {v v' : Option String} (h1 : (k, v) ∈ m) (h2 : (k, v') ∈ m) :
    v = v' := by
  induction m with
  | nil => cases h1
  | cons q m' ih =>
    rw [List.map_cons, List.nodup_cons] at hnodup
    rcases List.mem_cons.mp h1 with heq1 | h1'
    · rcases List.mem_cons.mp h2 with heq2 | h2'
      · rw [← heq1] at heq2
        exact ((Prod.ext_iff.mp heq2).2).symm
      · exact absurd (List.mem_map.mpr ⟨(k, v'), h2', by rw [← heq1]⟩) hnodup.1
    · rcases List.mem_cons.mp h2 with heq2 | h2'
      · exact absurd (List.mem_map.mpr ⟨(k, v), h1', by rw [← heq2]⟩) hnodup.1
      · exact ih hnodup.2 h1' h2'

theorem self_mem_dictInsert (m : Cache) (kv : String × Option String) :
    kv ∈ dictInsert m kv := by
  unfold dictInsert
  split
  · next h =>
    obtain ⟨p, hp, hpk⟩ := List.any_eq_true.mp h
    refine List.mem_map.mpr ⟨p, hp, ?_⟩
    rw [if_pos hpk, beq_iff_eq.mp hpk]
  · exact List.mem_append_right _ (by simp)

theorem mem_dictInsert_of_ne {m : Cache} {q : String × Option String}
    (kv : String × Option String) (hq : q ∈ m) (hne : q.1 ≠ kv.1) :
    q ∈ dictInsert m kv := by
  unfold dictInsert
  split
  · refine List.mem_map.mpr ⟨q, hq, ?_⟩
    rw [if_neg (by simp [hne])]
  · exact List.mem_append_left _ hq

theorem keys_dictInsert (m : Cache) (kv : String × Option String) :
    (dictInsert m kv).map Prod.fst =
      if m.any (fun p => p.1 == kv.1) then m.map Prod.fst
      else m.map Prod.fst ++ [kv.1] := by
  unfold dictInsert
  split
  · rw [List.map_map]
    apply List.map_congr_left
    intro p _
    by_cases hp : p.1 = kv.1 <;> simp [hp]
  · simp

theorem dictInsert_keys_nodup {m : Cache} (kv : String × Option String)
    (h : (m.map Prod.fst).Nodup) : ((dictInsert m kv).map Prod.fst).Nodup := by
  rw [keys_dictInsert]
  split
  · exact h
  · next hany =>
    refine h.append (List.nodup_singleton _) (List.disjoint_singleton.mpr ?_)
    intro hmem
    obtain ⟨p, hp, hpk⟩ := List.mem_map.mp hmem
    exact hany (List.any_eq_true.mpr ⟨p, hp, beq_iff_eq.mpr hpk⟩)

theorem dictUpdate_keys_nodup (j : Cache) :
    ∀ {m : Cache}, (m.map Prod.fst).Nodup → ((dictUpdate m j).map Prod.fst).Nodup := by
  induction j with
  | nil => intro m h; exact h
  | cons kv j' ih => intro m h; exact ih (dictInsert_keys_nodup kv h)

theorem mem_dictUpdate_left (j : Cache) :
    ∀ {m : Cache} {q : String × Option String},
      q ∈ m → q.1 ∉ j.map Prod.fst → q ∈ dictUpdate m j := by
  induction j with
  | nil => intro m q hq _; exact hq
  | cons kv j' ih =>
    intro m q hq hkey
    rw [List.map_cons, List.mem_cons] at hkey
    push_neg at hkey
    exact ih (mem_dictInsert_of_ne kv hq hkey.1) hkey.2

theorem mem_dictUpdate_right (j : Cache) :
    ∀ {m : Cache} {kv : String × Option String},
      kv ∈ j → (j.map Prod.fst).Nodup → kv ∈ dictUpdate m j := by
  induction j with
  | nil => intro m kv h; cases h
  | cons q j' ih =>
    intro m kv hkv hnodup
    rw [List.map_cons, List.nodup_cons] at hnodup
    rcases List.mem_cons.mp hkv with heq | hkv'
    · subst heq
      exact mem_dictUpdate_left j' (self_mem_dictInsert m kv) hnodup.1
    · exact ih hkv' hnodup.2

theorem lookup_eq_of_mem_nodup {m : Cache} (hnodup : (m.map Prod.fst).Nodup)
    {k : String} {v : Option String} (hmem : (k, v) ∈ m) :
    List.lookup k m = some v := by
  induction m with
  | nil => cases hmem
  | cons q m' ih =>
    obtain ⟨q1, q2⟩ := q
    rw [List.map_cons, List.nodup_cons] at hnodup
    rcases List.mem_cons.mp hmem with heq | hmem'
    · injection heq with h1 h2
      subst h1
      subst h2
      simp [List.lookup]
    · have hne : (k == q1) = false := by
        rw [beq_eq_false_iff_ne]
        intro hkq
        exact hnodup.1 (List.mem_map.mpr ⟨(k, v), hmem', hkq ▸ rfl⟩)
      simp only [List.lookup, hne]
      exact ih hnodup.2 hmem'

theorem lookupStage_kvs_isEmpty_of_changed {catalog : String → List ArtistJson}
    {kvs : Cache} (h : (lookupStage catalog kvs).changed = true) :
    (lookupStage catalog kvs).kvs.isEmpty = false := by
  unfold lookupStage at h ⊢
  by_cases he : kvs.isEmpty = true
  · rw [if_pos he] at h
    cases h
  · rw [Bool.not_eq_true] at he
    rw [if_neg (by simp [he])] at h ⊢
    rw [lookup_kvs_eq, List.isEmpty_eq_false]
    intro hnil
    rw [List.map_eq_nil_iff] at hnil
    rw [hnil] at he
    simp at he

theorem mainRun_written_eq (catalog : String → List ArtistJson)
    (detail : Option String → ArtistRec × List RelGroupJson)
    (file : Option Cache) (args : Args) :
    (mainRun catalog detail file args).written =
      if (lookupStage catalog (initialKvs args file)).changed && optTruthy args.json
      then some (lookupStage catalog (initialKvs args file)).kvs else none := by
  have hb : (!(lookupStage catalog (initialKvs args file)).kvs.isEmpty &&
      (lookupStage catalog (initialKvs args file)).changed && optTruthy args.json) =
      ((lookupStage catalog (initialKvs args file)).changed && optTruthy args.json) := by
    cases hc : (lookupStage catalog (initialKvs args file)).changed
    · simp
    · rw [lookupStage_kvs_isEmpty_of_changed hc]
      simp
  simp only [mainRun]
  split
  · simp [hb]
  · split
    · simp [hb]
    · simp [hb]

/-- C2: `search_artist` keeps exactly the candidates whose name equals the
query string or whose match score equals 100: every result element satisfies
one of the two conditions, every artist of the catalog's response satisfying
one of them appears (annotated) in the result, and an artist satisfying
neither is excluded. -/
theorem claim_C2 (catalog : String → List ArtistJson) (artist_name : String) :
    (∀ c ∈ search_artist catalog artist_name, c.name = artist_name ∨ c.score = 100) ∧
    (∀ a ∈ catalog artist_name, (a.name = artist_name ∨ a.score = 100) →
      mkCandidate a ∈ search_artist catalog artist_name) ∧
    (∀ a ∈ catalog artist_name, a.name ≠ artist_name → a.score ≠ 100 →
      mkCandidate a ∉ search_artist catalog artist_name) := by
  refine ⟨?_, ?_, ?_⟩
  · intro c hc
    obtain ⟨a, ha, rfl⟩ := List.mem_map.mp hc
    rw [List.mem_filter] at ha
    have hcond : a.name = artist_name ∨ a.score = 100 := by simpa using ha.2
    simpa [mkCandidate] using hcond
  · intro a ha hcond
    exact List.mem_map.mpr ⟨a, List.mem_filter.mpr ⟨ha, by simpa using hcond⟩, rfl⟩
  · intro a ha h1 h2 hmem
    obtain ⟨b, hb, heqb⟩ := List.mem_map.mp hmem
    rw [List.mem_filter] at hb
    have hcond : b.name = artist_name ∨ b.score = 100 := by simpa using hb.2
    have hbname : b.name = a.name := by
      have := congrArg Candidate.name heqb
      simpa [mkCandidate] using this
    have hbscore : b.score = a.score := by
      have := congrArg Candidate.score heqb
      simpa [mkCandidate] using this
    rcases hcond with h | h
    · rw [hbname] at h; exact h1 h
    · rw [hbscore] at h; exact h2 h

/-- Witness for C2: a concrete exact-name candidate with a non-perfect
score is kept by the resolver. -/
theorem claim_C2_witness :
    mkCandidate ⟨"Foo", "id1", 50, none⟩ ∈
      search_artist (fun _ => [⟨"Foo", "id1", 50, none⟩]) "Foo" :=
  (claim_C2 (fun _ => [⟨"Foo", "id1", 50, none⟩]) "Foo").2.1
    ⟨"Foo", "id1", 50, none⟩ (by simp) (Or.inl rfl)

/-- C6: every candidate kept by the resolver has `dispname` equal to
"name (note)" when it carries a non-empty disambiguation note, and equal to
its plain name when it carries no note. -/
theorem claim_C6 (catalog : String → List ArtistJson) (artist_name : String) :
    ∀ c ∈ search_artist catalog artist_name,
      (∀ d, c.disambiguation = some d → d ≠ "" →
        c.dispname = c.name ++ " (" ++ d ++ ")") ∧
      (c.disambiguation = none → c.dispname = c.name) := by
  intro c hc
  obtain ⟨a, _, rfl⟩ := List.mem_map.mp hc
  constructor
  · intro d hd hne
    have hdis : a.disambiguation = some d := by simpa [mkCandidate] using hd
    have htru : optTruthy (some d) = true := by simp [optTruthy, hne]
    show (mkCandidate a).dispname = (mkCandidate a).name ++ " (" ++ d ++ ")"
    simp [mkCandidate, hdis, htru]
  · intro hd
    have hdis : a.disambiguation = none := by simpa [mkCandidate] using hd
    simp [mkCandidate, hdis, optTruthy]

/-- Witness for C6: a kept candidate named Y carrying note X displays as
"Y (X)". -/
theorem claim_C6_witness :
    (mkCandidate ⟨"Y", "i1", 100, some "X"⟩).dispname =
      (mkCandidate ⟨"Y", "i1", 100, some "X"⟩).name ++ " (" ++ "X" ++ ")" :=
  ((claim_C6 (fun _ => [⟨"Y", "i1", 100, some "X"⟩]) "Y"
      (mkCandidate ⟨"Y", "i1", 100, some "X"⟩) (by decide)).1) "X" rfl (by decide)

/-- C3: `get_releases` returns a permutation of the concatenation, in input
order, of each artist's fetched release groups, sorted by the
first-release-date string in descending code-point lexicographic order,
with ties kept in their original relative order (the sublist of releases
carrying any fixed date is unchanged); on the spec's example dates
2020-01-01, 1999-05-05, 2020-06-01 the output order is 2020-06-01,
2020-01-01, 1999-05-05. -/
theorem claim_C3 {α : Type} (detail : α → ArtistRec × List RelGroupJson)
    (artist_ids : List α) :
    (get_releases detail artist_ids).Perm
        ((artist_ids.map (get_releases_artist detail)).flatten) ∧
    (get_releases detail artist_ids).Pairwise relGe ∧
    (∀ d : String,
      (get_releases detail artist_ids).filter (fun r => r.first_release_date == d) =
        ((artist_ids.map (get_releases_artist detail)).flatten).filter
          (fun r => r.first_release_date == d)) ∧
    (get_releases exDetail [0]).map (fun r => r.first_release_date) =
      ["2020-06-01", "2020-01-01", "1999-05-05"] :=
  ⟨sortRelDesc_perm _, sortRelDesc_sorted _, fun d => filter_sortRelDesc d _, by decide⟩

/-- C5 counterexample: at a release with date 2020-01-01, artist Ann and
title Album, the printed line separates the date from the artist name with a
single space, not with the space-hyphen-space separator the claim states for
all three fields. -/
theorem claim_C5_counterexample :
    print_releases [⟨"Album", "2020-01-01", ⟨"Ann", "mbid-1"⟩⟩] ≠
      [specLineC5 ⟨"Album", "2020-01-01", ⟨"Ann", "mbid-1"⟩⟩] := by decide

/-- C5 (amended): for every release the presenter prints exactly one line:
the first-release-date left-justified to width 10, a single space, then the
artist name and the title separated by space-hyphen-space. -/
theorem claim_C5 (releases : List Release) :
    print_releases releases = releases.map specLineC5Amended := by
  unfold print_releases specLineC5Amended
  apply List.map_congr_left
  intro r _
  simp [joinSep, String.append_assoc]

/-- C1: the claim fails on the code. `main` reads `args.artist_ids`, an
attribute argparse never defines (the `--ids` values are stored as
`args.ids`), so a run supplying `--ids` raises `AttributeError` before any
release fetch: with `--ids 3f8a` alone the run crashes and fetches nothing
instead of fetching the explicit identifier's releases. -/
theorem claim_C1 :
    (mainRun (fun _ => []) (fun _ => (⟨"", ""⟩, [])) none
        ⟨some ["3f8a"], none, none, false⟩).crashed = true ∧
    (mainRun (fun _ => []) (fun _ => (⟨"", ""⟩, [])) none
        ⟨some ["3f8a"], none, none, false⟩).releases = none ∧
    (mainRun (fun _ => []) (fun _ => (⟨"", ""⟩, [])) none
        ⟨some ["3f8a"], none, none, false⟩).failed = false := by decide

/-- C4: when some name resolves to zero or several candidates, the run is
marked failed and aborts before fetching: the failure message is printed and
the run returns without raising, no releases are fetched or printed, the
cache is still written exactly when something changed and a path was given,
and every entry whose search did not return a single candidate keeps its
old value. -/
theorem claim_C4 (catalog : String → List ArtistJson)
    (detail : Option String → ArtistRec × List RelGroupJson)
    (file : Option Cache) (args : Args)
    (hfail : (lookupStage catalog (initialKvs args file)).failure = true) :
    (mainRun catalog detail file args).failed = true ∧
    (mainRun catalog detail file args).crashed = false ∧
    (mainRun catalog detail file args).releases = none ∧
    (mainRun catalog detail file args).output = none ∧
    (mainRun catalog detail file args).written =
      (if (lookupStage catalog (initialKvs args file)).changed && optTruthy args.json
       then some (lookupStage catalog (initialKvs args file)).kvs else none) ∧
    (∀ k v, (k, v) ∈ initialKvs args file → optTruthy v = false →
      (search_artist catalog k).length ≠ 1 →
      (k, v) ∈ (lookupStage catalog (initialKvs args file)).kvs) := by
  have hmain : (mainRun catalog detail file args).failed = true ∧
      (mainRun catalog detail file args).crashed = false ∧
      (mainRun catalog detail file args).releases = none ∧
      (mainRun catalog detail file args).output = none := by
    simp [mainRun, hfail]
  refine ⟨hmain.1, hmain.2.1, hmain.2.2.1, hmain.2.2.2,
    mainRun_written_eq catalog detail file args, ?_⟩
  intro k v hmem hv hlen
  unfold lookupStage
  by_cases he : (initialKvs args file).isEmpty = true
  · rw [if_pos he]
    exact hmem
  · rw [if_neg he, lookup_kvs_eq]
    exact List.mem_map.mpr ⟨(k, v), hmem, resolveEntry_eq_self hv hlen⟩

/-- Witness for C4: with a catalog returning no candidates and one seeded
artist name, the run reports failure and fetches nothing. -/
theorem claim_C4_witness :
    (mainRun (fun _ => []) (fun _ => (⟨"", ""⟩, [])) none
        ⟨none, some ["Ann"], none, false⟩).failed = true ∧
    (mainRun (fun _ => []) (fun _ => (⟨"", ""⟩, [])) none
        ⟨none, some ["Ann"], none, false⟩).releases = none :=
  ⟨(claim_C4 _ _ _ _ (by decide)).1, (claim_C4 _ _ _ _ (by decide)).2.2.1⟩

/-- C7: the cache file is written exactly when resolution changed at least
one entry and a cache path was provided; in particular a run without
`--json` never writes a file, and an unchanged run writes nothing. -/
theorem claim_C7 (catalog : String → List ArtistJson)
    (detail : Option String → ArtistRec × List RelGroupJson)
    (file : Option Cache) (args : Args) :
    ((mainRun catalog detail file args).written =
      if (lookupStage catalog (initialKvs args file)).changed && optTruthy args.json
      then some (lookupStage catalog (initialKvs args file)).kvs else none) ∧
    ((mainRun catalog detail file args).written.isSome = true ↔
      (lookupStage catalog (initialKvs args file)).changed = true ∧
        optTruthy args.json = true) ∧
    (args.json = none → (mainRun catalog detail file args).written = none) := by
  have h := mainRun_written_eq catalog detail file args
  refine ⟨h, ?_, ?_⟩
  · rw [h]
    cases hc : (lookupStage catalog (initialKvs args file)).changed <;>
      cases hj : optTruthy args.json <;> simp [hc, hj]
  · intro hj
    rw [h, hj]
    simp [optTruthy]

/-- Witness for C7: a run seeded only with `--artists` and no `--json`
writes no file. -/
theorem claim_C7_witness :
    (mainRun (fun _ => []) (fun _ => (⟨"", ""⟩, [])) none
        ⟨none, some ["Ann"], none, false⟩).written = none :=
  (claim_C7 (fun _ => []) (fun _ => (⟨"", ""⟩, [])) none
    ⟨none, some ["Ann"], none, false⟩).2.2 rfl

/-- C8: a missing cache file is tolerated: the whole run behaves exactly as
if the cache file existed with empty content, and the working set after the
loading phase is the one built from the `--artists` seeds alone, independent
of the cache-path argument. -/
theorem claim_C8 (catalog : String → List ArtistJson)
    (detail : Option String → ArtistRec × List RelGroupJson) (args : Args) :
    mainRun catalog detail none args = mainRun catalog detail (some []) args ∧
    initialKvs args none = initialKvs { args with json := none } none := by
  have hinit : initialKvs args none = initialKvs args (some []) := by
    unfold initialKvs
    cases h : optTruthy args.json <;> simp [h, dictUpdate]
  constructor
  · simp only [mainRun, hinit]
  · unfold initialKvs
    cases h : optTruthy args.json <;> simp [h, optTruthy]

/-- C9: an entry of the working set that already holds an identifier is kept
unchanged by `lookup`, and its name is never sent to the catalog's search
endpoint. -/
theorem claim_C9 (catalog : String → List ArtistJson) (kvs : Cache)
    (k : String) (v : Option String) (hnodup : (kvs.map Prod.fst).Nodup)
    (hmem : (k, v) ∈ kvs) (hv : optTruthy v = true) :
    (k, v) ∈ (lookup catalog kvs).kvs ∧ k ∉ (lookup catalog kvs).queried := by
  constructor
  · rw [lookup_kvs_eq]
    refine List.mem_map.mpr ⟨(k, v), hmem, ?_⟩
    simp [resolveEntry, hv]
  · rw [lookup_queried_eq]
    intro hk
    obtain ⟨p, hp, hpk⟩ := List.mem_map.mp hk
    rw [List.mem_filter] at hp
    obtain ⟨hp1, hp2⟩ := hp
    have hpe : (k, p.2) = p := by rw [← hpk]
    have hp1' : (k, p.2) ∈ kvs := by rw [hpe]; exact hp1
    have hval : p.2 = v := mem_value_eq_of_nodup hnodup hp1' hmem
    rw [hval, hv] at hp2
    cases hp2

/-- Witness for C9: an already-resolved entry survives `lookup` untouched
and unqueried. -/
theorem claim_C9_witness :
    ("Ann", some "mbid-7") ∈
      (lookup (fun _ => []) [("Ann", some "mbid-7")]).kvs ∧
    "Ann" ∉ (lookup (fun _ => []) [("Ann", some "mbid-7")]).queried :=
  claim_C9 (fun _ => []) [("Ann", some "mbid-7")] "Ann" (some "mbid-7")
    (by decide) (by decide) (by decide)

/-- C10: a name that is both a `--artists` argument and a key of the cache
file ends up in the working set with the cache file's identifier (the file
is merged over the unresolved seeds), so `lookup` never queries the catalog
for it. -/
theorem claim_C10 (catalog : String → List ArtistJson) (args : Args)
    (j : Cache) (name id : String)
    (hjson : optTruthy args.json = true)
    (_hname : name ∈ args.artists.getD [])
    (hj : (name, some id) ∈ j)
    (hjnodup : (j.map Prod.fst).Nodup)
    (hid : id ≠ "") :
    (name, some id) ∈ initialKvs args (some j) ∧
    List.lookup name (initialKvs args (some j)) = some (some id) ∧
    name ∉ (lookupStage catalog (initialKvs args (some j))).queried := by
  have hkvs : initialKvs args (some j) =
      dictUpdate (if listTruthy args.artists then
        dictUpdate [] ((args.artists.getD []).map (fun k => (k, (none : Option String))))
        else []) j := by
    unfold initialKvs
    simp [hjson]
  have hnodup0 : (((if listTruthy args.artists then
      dictUpdate [] ((args.artists.getD []).map (fun k => (k, (none : Option String))))
      else []) : Cache).map Prod.fst).Nodup := by
    split
    · exact dictUpdate_keys_nodup _ (by simp)
    · simp
  have hmem1 : (name, some id) ∈ initialKvs args (some j) := by
    rw [hkvs]
    exact mem_dictUpdate_right j hj hjnodup
  have hnodup1 : ((initialKvs args (some j)).map Prod.fst).Nodup := by
    rw [hkvs]
    exact dictUpdate_keys_nodup j hnodup0
  refine ⟨hmem1, lookup_eq_of_mem_nodup hnodup1 hmem1, ?_⟩
  have hne : (initialKvs args (some j)).isEmpty = false := by
    rw [List.isEmpty_eq_false]
    intro h0
    rw [h0] at hmem1
    cases hmem1
  unfold lookupStage
  rw [if_neg (by simp [hne]), lookup_queried_eq]
  intro hk
  obtain ⟨p, hp, hpk⟩ := List.mem_map.mp hk
  rw [List.mem_filter] at hp
  obtain ⟨hp1, hp2⟩ := hp
  have hpe : (name, p.2) = p := by rw [← hpk]
  have hp1' : (name, p.2) ∈ initialKvs args (some j) := by rw [hpe]; exact hp1
  have hval : p.2 = some id := mem_value_eq_of_nodup hnodup1 hp1' hmem1
  rw [hval] at hp2
  simp [optTruthy, hid] at hp2

/-- Witness for C10: "Ann" is seeded via `--artists` and cached with an
identifier; the cache value wins and "Ann" is not re-queried. -/
theorem claim_C10_witness :
    ("Ann", some "mbid-9") ∈
      initialKvs ⟨none, some ["Ann"], some "cache.json", false⟩
        (some [("Ann", some "mbid-9")]) ∧
    List.lookup "Ann" (initialKvs ⟨none, some ["Ann"], some "cache.json", false⟩
        (some [("Ann", some "mbid-9")])) = some (some "mbid-9") ∧
    "Ann" ∉ (lookupStage (fun _ => [])
        (initialKvs ⟨none, some ["Ann"], some "cache.json", false⟩
          (some [("Ann", some "mbid-9")]))).queried :=
  claim_C10 (fun _ => []) ⟨none, some ["Ann"], some "cache.json", false⟩
    [("Ann", some "mbid-9")] "Ann" "mbid-9"
    (by decide) (by decide) (by decide) (by decide) (by decide)

end Tracker
